import Mathlib

/-!
Verification development for the 3D truss solver and its AI size optimizer.

The Python sources embedded here are `ai_optimizer.py` (class `TrussOptimizer`)
and the `Calculate Results` / `Run AI Size Optimization` handlers of `app.py`.
Real-number arithmetic of the source is modelled over `ℚ`.  The structural
solver `core_solver.py` is not part of the available sources; where its
behaviour matters it is either abstracted as an explicit solver parameter or
modelled from the specification (such definitions say so in their doc comment).
-/

set_option autoImplicit false

namespace Truss

/-- A node of the truss: identity, coordinates and the three restraint flags,
as built by the `Calculate Results` handler of `app.py`
(`Node(valid_node_count, x, y, z, rx, ry, rz)`). -/
structure Node where
  id : ℕ
  x : ℚ
  y : ℚ
  z : ℚ
  rX : ℤ
  rY : ℤ
  rZ : ℤ
  deriving DecidableEq, Repr

/-- Modelled from the spec: each node owns three consecutive global DOF
indices `3*index .. 3*index+2` assigned at system-build time, where `index`
is the zero-based node position (`id` is one-based).  `core_solver.py` is not
among the sources, so the DOF assignment is taken from the specification. -/
def Node.dof0 (n : Node) : ℕ := 3 * (n.id - 1)

/-- Second global DOF index of a node (see `Node.dof0`). -/
def Node.dof1 (n : Node) : ℕ := 3 * (n.id - 1) + 1

/-- Third global DOF index of a node (see `Node.dof0`). -/
def Node.dof2 (n : Node) : ℕ := 3 * (n.id - 1) + 2

/-- An axial member: end nodes, elastic modulus `E`, cross-sectional area `A`,
derived length `L`, transformation vector `T_vector` and the 6×6 global
stiffness matrix, plus the post-solve internal force.  Field names follow the
attribute names used by `ai_optimizer.py`. -/
structure Member where
  id : ℕ
  node_i : Node
  node_j : Node
  E : ℚ
  A : ℚ
  L : ℚ
  T_vector : List ℚ
  k_global_matrix : List (List ℚ)
  internal_force : ℚ
  deriving DecidableEq, Repr

/-- The truss system state visible to the optimizer: nodes, members, the
load dictionary (modelled as a total function with default `0`, matching
`ts.loads.get(dof, 0.0)`) and the post-solve global displacement vector. -/
structure TrussSystem where
  nodes : List Node
  members : List Member
  loads : ℕ → ℚ
  U_global : Option (List ℚ)

/-- Outer product `np.outer(u, v)` of two vectors as a list-of-rows matrix. -/
def outerProd (u v : List ℚ) : List (List ℚ) :=
  u.map (fun ui => v.map (fun vj => ui * vj))

/-- Scalar multiple of a list-of-rows matrix. -/
def matScale (c : ℚ) (m : List (List ℚ)) : List (List ℚ) :=
  m.map (fun row => row.map (fun x => c * x))

/-- Elementwise weight `np.sum(areas * lengths * density)`:
the sum over members of `areaᵢ * lengthᵢ * density`. -/
def weightOf (areas lengths : List ℚ) (density : ℚ) : ℚ :=
  (List.zipWith (fun a l => a * l * density) areas lengths).sum

/-- Maximum of the absolute values of a list, `np.max(np.abs(U))`.  For a
nonempty `U` the fold seed `0` is harmless because every `|u|` is
nonnegative; `np.max` on an empty array would raise, a case no claim touches. -/
def maxAbs (U : List ℚ) : ℚ :=
  (U.map (fun x => |x|)).foldl max 0

/-- The stress of a member under the candidate areas:
`stress = abs(m.internal_force) / areas[i]` from `objective_function`. -/
def memberStress (force a : ℚ) : ℚ := |force| / a

/-- The optimizer object of `ai_optimizer.py`: the private (deep-copied)
truss `self.ts`, the material and constraint parameters, and the member
lengths `self.lengths` captured once at construction. -/
structure TrussOptimizer where
  ts : TrussSystem
  density : ℚ
  yield_stress : ℚ
  max_deflection : ℚ
  lengths : List ℚ

/-- `TrussOptimizer.__init__`: `self.ts = copy.deepcopy(base_truss)` is
modelled as a value copy (which is exactly what a deep copy provides: an
independent structure whose mutation cannot reach the caller), and
`self.lengths = np.array([m.L for m in self.ts.members])`. -/
def TrussOptimizer.init (base_truss : TrussSystem)
    (density yield_stress max_deflection : ℚ) : TrussOptimizer :=
  let ts := base_truss
  { ts := ts
    density := density
    yield_stress := yield_stress
    max_deflection := max_deflection
    lengths := ts.members.map (fun m => m.L) }

/-- Step 1 of `objective_function` on one member: `m.A = areas[i]` followed by
`m.k_global_matrix = (m.E * m.A / m.L) * np.outer(m.T_vector, m.T_vector)`. -/
def updateMember (m : Member) (a : ℚ) : Member :=
  { m with
    A := a
    k_global_matrix := matScale (m.E * a / m.L) (outerProd m.T_vector m.T_vector) }

/-- The loop `for i, m in enumerate(self.ts.members): ...` assigning the
candidate areas and refreshing each member stiffness matrix. -/
def assignAreas (ts : TrussSystem) (areas : List ℚ) : TrussSystem :=
  { ts with members := List.zipWith updateMember ts.members areas }

/-- The deflection penalty block of `objective_function`: guarded by
`if self.ts.U_global is not None`, adds `1e9 * (max_disp / self.max_deflection)`
when `max_disp > self.max_deflection`. -/
def deflectionPenalty (max_deflection : ℚ) (Uopt : Option (List ℚ)) : ℚ :=
  match Uopt with
  | none => 0
  | some U =>
      let max_disp := maxAbs U
      if max_disp > max_deflection then 10 ^ 9 * (max_disp / max_deflection) else 0

/-- The stress penalty loop of `objective_function`: for each member,
`stress = abs(m.internal_force) / areas[i]`, adding
`1e9 * (stress / self.yield_stress)` when `stress > self.yield_stress`. -/
def stressPenalty (yield_stress : ℚ) (members : List Member) (areas : List ℚ) : ℚ :=
  (List.zipWith
    (fun m a =>
      let stress := memberStress m.internal_force a
      if stress > yield_stress then 10 ^ 9 * (stress / yield_stress) else 0)
    members areas).sum

/-- `TrussOptimizer.objective_function`.  The inner `self.ts.solve()` call
lives in `core_solver.py` (not among the sources) and is abstracted as the
parameter `solveFn`: `none` models the `except Exception` branch (singular
system), `some ts2` a successful solve publishing `U_global` and the member
internal forces.  Returns the updated optimizer object (its `self.ts` has the
mutated areas, and the solve result on success) and the score. -/
def objective_function (solveFn : TrussSystem → Option TrussSystem)
    (o : TrussOptimizer) (areas : List ℚ) : TrussOptimizer × ℚ :=
  let ts1 := assignAreas o.ts areas
  match solveFn ts1 with
  | none => ({ o with ts := ts1 }, 10 ^ 12)
  | some ts2 =>
      let weight := weightOf areas o.lengths o.density
      let penalty :=
        deflectionPenalty o.max_deflection ts2.U_global
          + stressPenalty o.yield_stress ts2.members areas
      ({ o with ts := ts2 }, weight + penalty)

/-- Two-location heap for the frame-effect claims: the caller-owned base
truss handed to `TrussOptimizer(base_truss=...)` and the optimizer object.
Because `__init__` deep-copies the base, the two locations are disjoint. -/
structure OptWorld where
  base_truss : TrussSystem
  opt : TrussOptimizer

/-- Construction of the optimizer seen together with the caller-owned base. -/
def mkOptWorld (b : TrussSystem) (density yield_stress max_deflection : ℚ) : OptWorld :=
  { base_truss := b, opt := TrussOptimizer.init b density yield_stress max_deflection }

/-- One `objective_function` call acting on the heap: only the optimizer
location is written. -/
def objectiveW (solveFn : TrussSystem → Option TrussSystem)
    (w : OptWorld) (areas : List ℚ) : OptWorld × ℚ :=
  let (o2, score) := objective_function solveFn w.opt areas
  ({ w with opt := o2 }, score)

/-- Outcome of one `scipy.optimize.differential_evolution` run: the best
vector `result.x`, the flag `result.success`, and the sequence of candidate
vectors the search fed to the objective (`evals`).  The stochastic search
itself is external library code and is modelled as an oracle producing such
an outcome from the bounds. -/
structure DEOutcome where
  x : List ℚ
  success : Bool
  evals : List (List ℚ)

/-- `TrussOptimizer.optimize`: builds `bounds = [(min_area, max_area)] * n`,
runs differential evolution (the oracle `de`; its candidate evaluations are
replayed through `objective_function`), then recomputes
`final_weight = np.sum(result.x * self.lengths * self.density)` and returns
`(result.x, final_weight, result.success)`. -/
def optimize (solveFn : TrussSystem → Option TrussSystem)
    (de : List (ℚ × ℚ) → DEOutcome)
    (w : OptWorld) (min_area max_area : ℚ) : (List ℚ × ℚ × Bool) × OptWorld :=
  let num_members := w.opt.ts.members.length
  let bounds := List.replicate num_members (min_area, max_area)
  let result := de bounds
  let w2 := result.evals.foldl (fun acc a => (objectiveW solveFn acc a).1) w
  let optimized_areas := result.x
  let final_weight := weightOf optimized_areas w2.opt.lengths w2.opt.density
  ((optimized_areas, final_weight, result.success), w2)

/-! ## The `Calculate Results` handler of `app.py`

The handler parses three editable tables (nodes, members, loads) into a
`TrussSystem`, validates it, and only then dispatches a solve.  A table cell
left empty (pandas `NaN`) is modelled as `none`. -/

/-- One row of the nodes table: coordinates and restraint flags, any of which
may be missing (`pd.isna`). -/
structure NodeRow where
  x : Option ℚ
  y : Option ℚ
  z : Option ℚ
  rX : Option ℤ
  rY : Option ℤ
  rZ : Option ℤ
  deriving DecidableEq, Repr

/-- One row of the members table: the two node references, the elastic
modulus column and the area column. -/
structure MemberRow where
  nodeI : Option ℤ
  nodeJ : Option ℤ
  Emod : Option ℚ
  Aval : Option ℚ
  deriving DecidableEq, Repr

/-- One row of the loads table: the target node and the three components. -/
structure LoadRow where
  nodeId : Option ℤ
  fx : Option ℚ
  fy : Option ℚ
  fz : Option ℚ
  deriving DecidableEq, Repr

/-- The node-parsing loop of the handler: rows with a missing coordinate are
skipped (`continue`); a valid row at dataframe index `i` becomes
`Node(valid_node_count, ...)` with restraint defaults `0` and is recorded in
`node_map` under key `i + 1`.  Returns `(ts.nodes, node_map)`; `i` counts
rows already consumed, `cnt` the valid nodes so far. -/
def parseNodesAux : List NodeRow → ℕ → ℕ → List Node × List (ℤ × Node)
  | [], _, _ => ([], [])
  | r :: rs, i, cnt =>
      match r.x, r.y, r.z with
      | some x, some y, some z =>
          let n : Node :=
            { id := cnt + 1, x := x, y := y, z := z
              rX := r.rX.getD 0, rY := r.rY.getD 0, rZ := r.rZ.getD 0 }
          let rest := parseNodesAux rs (i + 1) (cnt + 1)
          (n :: rest.1, ((i : ℤ) + 1, n) :: rest.2)
      | _, _, _ => parseNodesAux rs (i + 1) cnt

/-- Parsing of the whole nodes table from row index 0. -/
def parseNodes (rows : List NodeRow) : List Node × List (ℤ × Node) :=
  parseNodesAux rows 0 0

/-- Number of node rows with all three coordinates present
(`valid_node_count` after the node loop). -/
def countValidNodes (rows : List NodeRow) : ℕ :=
  (rows.filter (fun r => r.x.isSome && r.y.isSome && r.z.isSome)).length

/-- Dictionary lookup `node_map[k]` over the association list. -/
def lookupNode : List (ℤ × Node) → ℤ → Option Node
  | [], _ => none
  | (k, n) :: t, k2 => if k2 = k then some n else lookupNode t k2

/-- Modelled from the spec: the `Member` constructor of `core_solver.py`
(absent from the sources) derives `L = ‖P_j − P_i‖`, the direction cosines,
`T = [-l,-m,-n,l,m,n]` and `k = (E·A/L)·Tᵗ·T`, and fails with
`DegenerateGeometryError` when the end nodes coincide (`L ≈ 0`).  The square
root needed for `L` is not rational and is abstracted as the parameter `sq`
applied to the squared distance; no claim proved here depends on its value,
only on the coincidence test, which is exact on the squared distance. -/
def mkMemberSpec (sq : ℚ → ℚ) (id : ℕ) (ni nj : Node) (E A : ℚ) :
    Except String Member :=
  let dx := nj.x - ni.x
  let dy := nj.y - ni.y
  let dz := nj.z - ni.z
  let L2 := dx ^ 2 + dy ^ 2 + dz ^ 2
  if L2 = 0 then .error "DegenerateGeometryError: zero-length member"
  else
    let L := sq L2
    let l := dx / L
    let m := dy / L
    let n := dz / L
    let T := [-l, -m, -n, l, m, n]
    .ok { id := id, node_i := ni, node_j := nj, E := E, A := A, L := L
          T_vector := T
          k_global_matrix := matScale (E * A / L) (outerProd T T)
          internal_force := 0 }

/-- The member-parsing loop: rows with a missing node reference are skipped;
a reference absent from `node_map` raises
`Member M{i+1} references an invalid Node ID.`; otherwise the member is
constructed with defaults `E = 2e11`, `A = 0.01`. -/
def parseMembersAux (sq : ℚ → ℚ) (node_map : List (ℤ × Node)) :
    List MemberRow → ℕ → Except String (List Member)
  | [], _ => .ok []
  | r :: rs, i =>
      match r.nodeI, r.nodeJ with
      | some ni_val, some nj_val =>
          match lookupNode node_map ni_val, lookupNode node_map nj_val with
          | some ni, some nj =>
              (mkMemberSpec sq (i + 1) ni nj (r.Emod.getD 200000000000)
                  (r.Aval.getD (1 / 100))).bind
                (fun m => (parseMembersAux sq node_map rs (i + 1)).map
                  (fun ms => m :: ms))
          | _, _ =>
              .error ("Member M" ++ toString (i + 1)
                ++ " references an invalid Node ID.")
      | _, _ => parseMembersAux sq node_map rs (i + 1)

/-- Pointwise additive dictionary write
`loads[d] = loads.get(d, 0.0) + v`. -/
def addAt (f : ℕ → ℚ) (d : ℕ) (v : ℚ) : ℕ → ℚ :=
  fun e => if e = d then f d + v else f e

/-- The load-parsing loop: rows with a missing node id are skipped; an id
absent from `node_map` raises
`Load at row {i+1} references an invalid Node ID.`; otherwise the three
components (defaults `0`) are added at the target node's three DOFs. -/
def parseLoadsAux (node_map : List (ℤ × Node)) :
    (ℕ → ℚ) → List LoadRow → ℕ → Except String (ℕ → ℚ)
  | loads, [], _ => .ok loads
  | loads, r :: rs, i =>
      match r.nodeId with
      | none => parseLoadsAux node_map loads rs (i + 1)
      | some node_id_val =>
          match lookupNode node_map node_id_val with
          | none =>
              .error ("Load at row " ++ toString (i + 1)
                ++ " references an invalid Node ID.")
          | some target_node =>
              let loads1 := addAt loads target_node.dof0 (r.fx.getD 0)
              let loads2 := addAt loads1 target_node.dof1 (r.fy.getD 0)
              let loads3 := addAt loads2 target_node.dof2 (r.fz.getD 0)
              parseLoadsAux node_map loads3 rs (i + 1)

/-- The empty load dictionary: every DOF reads as the default `0`. -/
def zeroLoads : ℕ → ℚ := fun _ => 0

/-- Parsing plus the completeness check of the handler, everything that runs
before a solver is dispatched: nodes, members, loads, then
`if not ts.nodes or not ts.members: raise ValueError(...)`. -/
def parseAndValidate (sq : ℚ → ℚ) (nrows : List NodeRow) (mrows : List MemberRow)
    (lrows : List LoadRow) : Except String TrussSystem :=
  let parsed := parseNodes nrows
  (parseMembersAux sq parsed.2 mrows 0).bind fun ms =>
    (parseLoadsAux parsed.2 zeroLoads lrows 0).bind fun ld =>
      if parsed.1.isEmpty || ms.isEmpty then
        .error "Incomplete model: Please define at least two valid nodes and one member."
      else
        .ok { nodes := parsed.1, members := ms, loads := ld, U_global := none }

/-- The whole `Calculate Results` handler: parse and validate, then dispatch
the solver selected by the UI toggle (`ts.solve()` or
`ts.solve_nonlinear(...)`), abstracted as `solveFn`. -/
def calcHandler (sq : ℚ → ℚ) (solveFn : TrussSystem → Except String TrussSystem)
    (nrows : List NodeRow) (mrows : List MemberRow) (lrows : List LoadRow) :
    Except String TrussSystem :=
  (parseAndValidate sq nrows mrows lrows).bind solveFn

/-- A member row with both references present but at least one of them not a
key of `node_map` — the `InvalidTopologyError` condition of a dangling
reference. -/
def memberRowBad (node_map : List (ℤ × Node)) (r : MemberRow) : Bool :=
  match r.nodeI, r.nodeJ with
  | some ni, some nj =>
      (lookupNode node_map ni).isNone || (lookupNode node_map nj).isNone
  | _, _ => false

/-- The `InvalidTopologyError` condition on a parsed input model: a member
row referencing an undefined node, or fewer than two valid nodes, or no
valid member row at all. -/
def topoBad (nrows : List NodeRow) (mrows : List MemberRow) : Bool :=
  mrows.any (memberRowBad (parseNodes nrows).2)
    || decide (countValidNodes nrows < 2)
    || mrows.all (fun r => r.nodeI.isNone || r.nodeJ.isNone)

/-- The spec-side per-node load sum: the total of one force component over
all load rows naming node key `k` (missing components read as `0`). -/
def sumLoads (sel : LoadRow → Option ℚ) (lrows : List LoadRow) (k : ℤ) : ℚ :=
  (lrows.map (fun r => if r.nodeId = some k then (sel r).getD 0 else 0)).sum

/-- The load function actually produced by the handler for a given node map,
with the empty dictionary when parsing fails. -/
def loadsFun (node_map : List (ℤ × Node)) (lrows : List LoadRow) : ℕ → ℚ :=
  match parseLoadsAux node_map zeroLoads lrows 0 with
  | .ok f => f
  | .error _ => zeroLoads

/-- Whether an `Except` computation succeeded. -/
def okB {α : Type} : Except String α → Bool
  | .ok _ => true
  | .error _ => false

/-- The contribution of a single load row to the parsed load at global DOF
`d`: its force components land on the three DOFs of the node it names, and
nowhere when it names no node. -/
def loadContrib (node_map : List (ℤ × Node)) (d : ℕ) (r : LoadRow) : ℚ :=
  match r.nodeId with
  | none => 0
  | some nid =>
      match lookupNode node_map nid with
      | none => 0
      | some nd =>
          (if d = nd.dof0 then r.fx.getD 0 else 0)
            + (if d = nd.dof1 then r.fy.getD 0 else 0)
            + (if d = nd.dof2 then r.fz.getD 0 else 0)

/-- Whether some member of the solved candidate violates the stress
constraint `|internal_force| / areaᵢ > yield_stress`. -/
def stressViolB (yield_stress : ℚ) (members : List Member) (areas : List ℚ) : Bool :=
  (List.zipWith
    (fun m a => decide (memberStress m.internal_force a > yield_stress))
    members areas).any (fun b => b)

/-- Whether the solved candidate violates the deflection constraint or some
stress constraint — the infeasibility condition of the specification. -/
def violatedB (max_deflection yield_stress : ℚ) (U : List ℚ)
    (members : List Member) (areas : List ℚ) : Bool :=
  decide (maxAbs U > max_deflection) || stressViolB yield_stress members areas

/-! ## Concrete instances used by witnesses and counterexamples -/

/-- A fully restrained node. -/
def nodeA : Node := { id := 1, x := 0, y := 0, z := 0, rX := 1, rY := 1, rZ := 1 }

/-- A member of unit length carrying no internal force. -/
def memA : Member :=
  { id := 1, node_i := nodeA, node_j := nodeA, E := 1, A := 1, L := 1
    T_vector := [], k_global_matrix := [], internal_force := 0 }

/-- A one-member base truss, not yet solved. -/
def tsA : TrussSystem :=
  { nodes := [nodeA], members := [memA], loads := zeroLoads, U_global := none }

/-- `tsA` solved with maximal displacement `0.1 m` (deflection violated
against a `0.05 m` limit). -/
def tsSolvedBad : TrussSystem := { tsA with U_global := some [1 / 10] }

/-- `tsA` solved with maximal displacement `0.01 m` (all constraints hold
against a `0.05 m` limit and any positive yield stress). -/
def tsSolvedOK : TrussSystem := { tsA with U_global := some [1 / 100] }

/-- `tsA` solved with maximal displacement `1 m` (grossly infeasible). -/
def tsSolvedHuge : TrussSystem := { tsA with U_global := some [1] }

/-- The optimizer world built on `tsA` with steel defaults:
density `7850`, yield stress `250e6 Pa`, deflection limit `0.05 m`. -/
def worldA : OptWorld := mkOptWorld tsA 7850 250000000 (1 / 20)

/-- A solver oracle that always fails (singular system). -/
def solveNoneO : TrussSystem → Option TrussSystem := fun _ => none

/-- A solver oracle that always publishes the infeasible state
`tsSolvedBad`. -/
def solveBadO : TrussSystem → Option TrussSystem := fun _ => some tsSolvedBad

/-- A solver oracle that always publishes the feasible state `tsSolvedOK`. -/
def solveOKO : TrussSystem → Option TrussSystem := fun _ => some tsSolvedOK

/-- A solver oracle that always publishes the grossly infeasible state
`tsSolvedHuge`. -/
def solveHugeO : TrussSystem → Option TrussSystem := fun _ => some tsSolvedHuge

/-- A differential-evolution oracle returning best vector `[0.01]`,
converged, having evaluated nothing. -/
def deA : List (ℚ × ℚ) → DEOutcome := fun _ => { x := [1 / 100], success := true, evals := [] }

/-- A differential-evolution oracle returning best vector `[0.01]`,
converged, having evaluated exactly that one candidate. -/
def deB : List (ℚ × ℚ) → DEOutcome :=
  fun _ => { x := [1 / 100], success := true, evals := [[1 / 100]] }

/-- An abstract square root stand-in for concrete handler runs (no claim
depends on its value). -/
def sqId : ℚ → ℚ := fun x => x

/-- A dispatched solver that succeeds without changing the system, used to
instantiate handler claims. -/
def solveOkE : TrussSystem → Except String TrussSystem := fun t => .ok t

/-- Two valid node rows: the first fully restrained, the second free. -/
def nrowsW : List NodeRow :=
  [{ x := some 0, y := some 0, z := some 0, rX := some 1, rY := some 1, rZ := some 1 },
   { x := some 1, y := some 0, z := some 0, rX := none, rY := none, rZ := none }]

/-- Three load rows: node 1 is named twice (`Fx` 5 and 7, one `Fy` 2), node 2
once (`Fx` 11). -/
def lrowsW : List LoadRow :=
  [{ nodeId := some 1, fx := some 5, fy := none, fz := none },
   { nodeId := some 1, fx := some 7, fy := some 2, fz := none },
   { nodeId := some 2, fx := some 11, fy := none, fz := none }]

/-! ## Helper lemmas -/

theorem objective_function_fst_lengths (solveFn : TrussSystem → Option TrussSystem)
    (o : TrussOptimizer) (areas : List ℚ) :
    ((objective_function solveFn o areas).1).lengths = o.lengths := by
  cases h : solveFn (assignAreas o.ts areas) <;> simp [objective_function, h]

theorem objective_function_fst_density (solveFn : TrussSystem → Option TrussSystem)
    (o : TrussOptimizer) (areas : List ℚ) :
    ((objective_function solveFn o areas).1).density = o.density := by
  cases h : solveFn (assignAreas o.ts areas) <;> simp [objective_function, h]

theorem foldl_objectiveW_base (solveFn : TrussSystem → Option TrussSystem) :
    ∀ (l : List (List ℚ)) (w : OptWorld),
      (l.foldl (fun acc a => (objectiveW solveFn acc a).1) w).base_truss = w.base_truss
  | [], _ => rfl
  | a :: l, w => by
    rw [List.foldl_cons]
    exact foldl_objectiveW_base solveFn l _

theorem foldl_objectiveW_lengths (solveFn : TrussSystem → Option TrussSystem) :
    ∀ (l : List (List ℚ)) (w : OptWorld),
      (l.foldl (fun acc a => (objectiveW solveFn acc a).1) w).opt.lengths = w.opt.lengths
  | [], _ => rfl
  | a :: l, w => by
    rw [List.foldl_cons]
    exact (foldl_objectiveW_lengths solveFn l _).trans
      (objective_function_fst_lengths solveFn w.opt a)

theorem foldl_objectiveW_density (solveFn : TrussSystem → Option TrussSystem) :
    ∀ (l : List (List ℚ)) (w : OptWorld),
      (l.foldl (fun acc a => (objectiveW solveFn acc a).1) w).opt.density = w.opt.density
  | [], _ => rfl
  | a :: l, w => by
    rw [List.foldl_cons]
    exact (foldl_objectiveW_density solveFn l _).trans
      (objective_function_fst_density solveFn w.opt a)

theorem weightOf_cons (a l ρ : ℚ) (as ls : List ℚ) :
    weightOf (a :: as) (l :: ls) ρ = a * l * ρ + weightOf as ls ρ := by
  simp [weightOf]

theorem weightOf_nonneg (ρ : ℚ) (hd : 0 ≤ ρ) :
    ∀ (areas lengths : List ℚ), (∀ x ∈ areas, 0 ≤ x) → (∀ x ∈ lengths, 0 ≤ x) →
      0 ≤ weightOf areas lengths ρ
  | [], _, _, _ => by simp [weightOf]
  | _ :: _, [], _, _ => by simp [weightOf]
  | a :: as, l :: ls, ha, hl => by
    have h1 : 0 ≤ a * l * ρ :=
      mul_nonneg (mul_nonneg (ha a (by simp)) (hl l (by simp))) hd
    have h2 := weightOf_nonneg ρ hd as ls
      (fun x hx => ha x (by simp [hx])) (fun x hx => hl x (by simp [hx]))
    rw [weightOf_cons]
    linarith

theorem le_foldl_max : ∀ (l : List ℚ) (a : ℚ), a ≤ l.foldl max a
  | [], _ => le_refl _
  | x :: l, a => by
    rw [List.foldl_cons]
    exact le_trans (le_max_left a x) (le_foldl_max l (max a x))

theorem maxAbs_nonneg (U : List ℚ) : 0 ≤ maxAbs U :=
  le_foldl_max _ 0

theorem deflectionPenalty_nonneg (md : ℚ) (hmd : 0 < md) (Uopt : Option (List ℚ)) :
    0 ≤ deflectionPenalty md Uopt := by
  cases Uopt with
  | none => simp [deflectionPenalty]
  | some U =>
    simp only [deflectionPenalty]
    split
    · next h =>
        have h1 : 0 ≤ maxAbs U / md := div_nonneg (maxAbs_nonneg U) (le_of_lt hmd)
        positivity
    · exact le_refl _

theorem deflectionPenalty_floor (md : ℚ) (U : List ℚ) (hmd : 0 < md)
    (h : maxAbs U > md) : 10 ^ 9 ≤ deflectionPenalty md (some U) := by
  simp only [deflectionPenalty, if_pos h]
  have h1 : (1 : ℚ) ≤ maxAbs U / md := (one_le_div hmd).2 (le_of_lt h)
  nlinarith

theorem deflectionPenalty_eq_zero (md : ℚ) (U : List ℚ) (h : ¬ maxAbs U > md) :
    deflectionPenalty md (some U) = 0 := by
  simp [deflectionPenalty, h]

theorem stressPenalty_cons (ys : ℚ) (m : Member) (a : ℚ) (ms : List Member) (as : List ℚ) :
    stressPenalty ys (m :: ms) (a :: as)
      = (if memberStress m.internal_force a > ys
          then 10 ^ 9 * (memberStress m.internal_force a / ys) else 0)
        + stressPenalty ys ms as := by
  simp [stressPenalty]

theorem stressViolB_cons (ys : ℚ) (m : Member) (a : ℚ) (ms : List Member) (as : List ℚ) :
    stressViolB ys (m :: ms) (a :: as)
      = (decide (memberStress m.internal_force a > ys) || stressViolB ys ms as) := by
  simp [stressViolB]

theorem stressPenalty_nonneg (ys : ℚ) (hys : 0 < ys) :
    ∀ (ms : List Member) (as : List ℚ), 0 ≤ stressPenalty ys ms as
  | [], _ => by simp [stressPenalty]
  | _ :: _, [] => by simp [stressPenalty]
  | m :: ms, a :: as => by
    rw [stressPenalty_cons]
    have h2 := stressPenalty_nonneg ys hys ms as
    split
    · next h =>
        have h1 : (0 : ℚ) < memberStress m.internal_force a / ys :=
          div_pos (lt_trans hys h) hys
        nlinarith
    · linarith

theorem stressPenalty_floor (ys : ℚ) (hys : 0 < ys) :
    ∀ (ms : List Member) (as : List ℚ), stressViolB ys ms as = true →
      10 ^ 9 ≤ stressPenalty ys ms as
  | [], _, h => by simp [stressViolB] at h
  | _ :: _, [], h => by simp [stressViolB] at h
  | m :: ms, a :: as, h => by
    rw [stressViolB_cons, Bool.or_eq_true, decide_eq_true_eq] at h
    rw [stressPenalty_cons]
    rcases h with h | h
    · rw [if_pos h]
      have h1 : (1 : ℚ) ≤ memberStress m.internal_force a / ys := (one_le_div hys).2 (le_of_lt h)
      have h2 := stressPenalty_nonneg ys hys ms as
      nlinarith
    · have h1 := stressPenalty_floor ys hys ms as h
      split
      · next hx =>
          have h3 : (0 : ℚ) < memberStress m.internal_force a / ys :=
            div_pos (lt_trans hys hx) hys
          nlinarith
      · linarith

theorem stressPenalty_eq_zero (ys : ℚ) :
    ∀ (ms : List Member) (as : List ℚ), stressViolB ys ms as = false →
      stressPenalty ys ms as = 0
  | [], as, _ => by simp [stressPenalty]
  | _ :: _, [], _ => by simp [stressPenalty]
  | m :: ms, a :: as, h => by
    rw [stressViolB_cons, Bool.or_eq_false_iff] at h
    rw [stressPenalty_cons, stressPenalty_eq_zero ys ms as h.2,
      if_neg (by simpa using h.1)]
    ring

theorem objective_function_snd_success
    (solveFn : TrussSystem → Option TrussSystem) (o : TrussOptimizer)
    (areas : List ℚ) (ts2 : TrussSystem)
    (hs : solveFn (assignAreas o.ts areas) = some ts2) :
    (objective_function solveFn o areas).2
      = weightOf areas o.lengths o.density
        + (deflectionPenalty o.max_deflection ts2.U_global
            + stressPenalty o.yield_stress ts2.members areas) := by
  simp [objective_function, hs]

/-! ## Claim theorems -/

/-- C1: `TrussOptimizer` never mutates the caller-provided base structure —
its areas, stiffness matrices and node coordinates are identical after
construction, after every `objective_function` evaluation and after
`optimize` itself; all candidate mutations happen on the private deep copy
`self.ts` (the `opt` heap location). -/
theorem optimize_preserves_base_truss
    (b : TrussSystem) (density ys md : ℚ)
    (solveFn : TrussSystem → Option TrussSystem) (w : OptWorld) (areas : List ℚ)
    (de : List (ℚ × ℚ) → DEOutcome) (mn mx : ℚ) :
    (mkOptWorld b density ys md).base_truss = b
      ∧ (objectiveW solveFn w areas).1.base_truss = w.base_truss
      ∧ (optimize solveFn de w mn mx).2.base_truss = w.base_truss := by
  refine ⟨rfl, rfl, ?_⟩
  simp only [optimize]
  exact foldl_objectiveW_base solveFn _ w

/-- C3: when the inner `solve()` call fails, `objective_function` returns the
fixed penalty `1e12` and propagates no exception; the weight and penalty
computation is never reached — the result is exactly the pair of the
area-mutated system and the constant, whatever the weight would have been. -/
theorem objective_solve_failure_penalty
    (solveFn : TrussSystem → Option TrussSystem) (o : TrussOptimizer) (areas : List ℚ)
    (h : solveFn (assignAreas o.ts areas) = none) :
    objective_function solveFn o areas
      = ({ o with ts := assignAreas o.ts areas }, 10 ^ 12) := by
  simp [objective_function, h]

theorem objective_solve_failure_penalty_witness :
    objective_function solveNoneO worldA.opt [1 / 100]
      = ({ worldA.opt with ts := assignAreas worldA.opt.ts [1 / 100] }, 10 ^ 12) :=
  objective_solve_failure_penalty solveNoneO worldA.opt [1 / 100] rfl

/-- C5: on a successful solve the score equals the weight plus the penalties:
the deflection penalty is `1e9` times the ratio of the maximal displacement
magnitude to `max_deflection` when that bound is exceeded and zero
otherwise, and each violating member contributes `1e9` times the ratio of
its stress `|force| / aᵢ` to `yield_stress`, zero when within bound. -/
theorem objective_success_decomposition
    (solveFn : TrussSystem → Option TrussSystem) (o : TrussOptimizer)
    (areas : List ℚ) (ts2 : TrussSystem) (U : List ℚ)
    (hs : solveFn (assignAreas o.ts areas) = some ts2)
    (hU : ts2.U_global = some U) :
    (objective_function solveFn o areas).2
      = weightOf areas o.lengths o.density
        + ((if maxAbs U > o.max_deflection
              then 10 ^ 9 * (maxAbs U / o.max_deflection) else 0)
            + (List.zipWith
                (fun m a =>
                  if memberStress m.internal_force a > o.yield_stress
                  then 10 ^ 9 * (memberStress m.internal_force a / o.yield_stress)
                  else 0)
                ts2.members areas).sum) := by
  simp [objective_function, hs, deflectionPenalty, hU, stressPenalty]

theorem objective_success_decomposition_witness :
    (objective_function solveOKO worldA.opt [1 / 100]).2
      = weightOf [1 / 100] worldA.opt.lengths worldA.opt.density
        + ((if maxAbs [1 / 100] > worldA.opt.max_deflection
              then 10 ^ 9 * (maxAbs [1 / 100] / worldA.opt.max_deflection) else 0)
            + (List.zipWith
                (fun m a =>
                  if memberStress m.internal_force a > worldA.opt.yield_stress
                  then 10 ^ 9 * (memberStress m.internal_force a / worldA.opt.yield_stress)
                  else 0)
                tsSolvedOK.members [1 / 100]).sum) :=
  objective_success_decomposition solveOKO worldA.opt [1 / 100] tsSolvedOK [1 / 100] rfl rfl

/-- C7: every candidate area vector whose components all sit above a positive
`min_area` — which the search bounds guarantee — makes the direct, unguarded
stress division `|internal_force| / aᵢ` well-defined: each divisor is nonzero
and the division is a genuine inverse of multiplication. -/
theorem stress_division_welldefined
    (mn mx a f : ℚ) (areas : List ℚ)
    (h0 : 0 < mn) (hb : ∀ x ∈ areas, mn ≤ x ∧ x ≤ mx) (ha : a ∈ areas) :
    a ≠ 0 ∧ memberStress f a * a = |f| := by
  have h2 : 0 < a := lt_of_lt_of_le h0 (hb a ha).1
  exact ⟨ne_of_gt h2, div_mul_cancel₀ _ (ne_of_gt h2)⟩

theorem stress_division_welldefined_witness :
    (1 / 100 : ℚ) ≠ 0 ∧ memberStress (-3) (1 / 100) * (1 / 100) = |(-3 : ℚ)| :=
  stress_division_welldefined (1 / 10000) (1 / 20) (1 / 100) (-3) [1 / 100]
    (by norm_num) (by norm_num) (by norm_num)

/-- C10: the member lengths used for weight evaluation are frozen at
construction — `self.lengths` is captured from the clone in `__init__` and
never updated by `objective_function` or `optimize`, so the final weight is
computed against the lengths captured at entry. -/
theorem lengths_frozen_at_construction
    (b : TrussSystem) (density ys md : ℚ)
    (solveFn : TrussSystem → Option TrussSystem) (w : OptWorld) (areas : List ℚ)
    (de : List (ℚ × ℚ) → DEOutcome) (mn mx : ℚ) :
    (TrussOptimizer.init b density ys md).lengths = b.members.map (fun m => m.L)
      ∧ (objective_function solveFn w.opt areas).1.lengths = w.opt.lengths
      ∧ (optimize solveFn de w mn mx).2.opt.lengths = w.opt.lengths
      ∧ (optimize solveFn de w mn mx).1.2.1
          = weightOf (de (List.replicate w.opt.ts.members.length (mn, mx))).x
              w.opt.lengths w.opt.density := by
  refine ⟨rfl, objective_function_fst_lengths solveFn w.opt areas, ?_, ?_⟩
  · simp only [optimize]
    exact foldl_objectiveW_lengths solveFn _ w
  · simp only [optimize]
    rw [foldl_objectiveW_lengths, foldl_objectiveW_density]

/-- C2, counterexample: a candidate violating the deflection constraint
(displacement `0.1 m` against a `0.05 m` limit) scores `78.5 + 2e9`, which is
strictly below the fixed value `1e12` returned on solve failure — so the
objective does not stay at or above that value under a constraint
violation. -/
theorem objective_floor_counterexample :
    solveBadO (assignAreas worldA.opt.ts [1 / 100]) = some tsSolvedBad
      ∧ tsSolvedBad.U_global = some [1 / 10]
      ∧ maxAbs [(1 : ℚ) / 10] > worldA.opt.max_deflection
      ∧ (objective_function solveBadO worldA.opt [1 / 100]).2 < 10 ^ 12
      ∧ (objective_function solveNoneO worldA.opt [1 / 100]).2 = 10 ^ 12 := by
  refine ⟨rfl, rfl, ?_, ?_, ?_⟩
  · norm_num [maxAbs, worldA, mkOptWorld, TrussOptimizer.init, abs_of_nonneg]
  · norm_num [objective_function, solveBadO, worldA, mkOptWorld, TrussOptimizer.init, tsA,
      tsSolvedBad, assignAreas, weightOf, deflectionPenalty, stressPenalty, maxAbs,
      memberStress, memA, nodeA, abs_of_nonneg]
  · norm_num [objective_function, solveNoneO]

/-- C2, amended: on a successful solve, a violated deflection or stress
constraint makes the objective at least the violation-penalty floor `1e9`
(not the distinct, thousandfold larger `1e12` returned on solve failure),
and the objective is exactly the unpenalized weight `Σ aᵢ·Lᵢ·ρ` when every
constraint holds. -/
theorem objective_penalty_floor
    (solveFn : TrussSystem → Option TrussSystem) (o : TrussOptimizer)
    (areas : List ℚ) (ts2 : TrussSystem) (U : List ℚ)
    (hs : solveFn (assignAreas o.ts areas) = some ts2)
    (hU : ts2.U_global = some U)
    (hmd : 0 < o.max_deflection) (hys : 0 < o.yield_stress)
    (hdens : 0 ≤ o.density)
    (hal : ∀ x ∈ areas, 0 ≤ x) (hll : ∀ x ∈ o.lengths, 0 ≤ x) :
    if violatedB o.max_deflection o.yield_stress U ts2.members areas = true
    then 10 ^ 9 ≤ (objective_function solveFn o areas).2
    else (objective_function solveFn o areas).2
      = weightOf areas o.lengths o.density := by
  have hval := objective_function_snd_success solveFn o areas ts2 hs
  rw [hU] at hval
  have hw := weightOf_nonneg o.density hdens areas o.lengths hal hll
  have hsp := stressPenalty_nonneg o.yield_stress hys ts2.members areas
  have hdp := deflectionPenalty_nonneg o.max_deflection hmd (some U)
  by_cases hv : violatedB o.max_deflection o.yield_stress U ts2.members areas = true
  · rw [if_pos hv]
    rw [violatedB, Bool.or_eq_true, decide_eq_true_eq] at hv
    rcases hv with hv | hv
    · have h1 := deflectionPenalty_floor o.max_deflection U hmd hv
      linarith
    · have h2 := stressPenalty_floor o.yield_stress hys ts2.members areas hv
      linarith
  · rw [if_neg hv]
    rw [violatedB, Bool.or_eq_true, decide_eq_true_eq, not_or] at hv
    rw [hval, deflectionPenalty_eq_zero o.max_deflection U hv.1,
      stressPenalty_eq_zero o.yield_stress ts2.members areas (by simpa using hv.2)]
    ring

theorem objective_penalty_floor_witness :
    if violatedB worldA.opt.max_deflection worldA.opt.yield_stress [1 / 10]
        tsSolvedBad.members [1 / 100] = true
    then 10 ^ 9 ≤ (objective_function solveBadO worldA.opt [1 / 100]).2
    else (objective_function solveBadO worldA.opt [1 / 100]).2
      = weightOf [1 / 100] worldA.opt.lengths worldA.opt.density :=
  objective_penalty_floor solveBadO worldA.opt [1 / 100] tsSolvedBad [1 / 10]
    rfl rfl
    (by norm_num [worldA, mkOptWorld, TrussOptimizer.init])
    (by norm_num [worldA, mkOptWorld, TrussOptimizer.init])
    (by norm_num [worldA, mkOptWorld, TrussOptimizer.init])
    (by norm_num)
    (by norm_num [worldA, mkOptWorld, TrussOptimizer.init, tsA, memA])

/-- C6: `optimize` returns exactly the best area vector found by the
bounded search (all components within `[min_area, max_area]`, which the
search guarantees), its weight computed as `Σ aᵢ·Lᵢ·ρ` over that returned
vector with the configured density and the frozen lengths, and the search
convergence flag passed through unchanged. -/
theorem optimize_result_from_search
    (solveFn : TrussSystem → Option TrussSystem) (de : List (ℚ × ℚ) → DEOutcome)
    (w : OptWorld) (mn mx : ℚ)
    (hb : (de (List.replicate w.opt.ts.members.length (mn, mx))).x.all
        (fun a => decide (mn ≤ a) && decide (a ≤ mx)) = true) :
    (optimize solveFn de w mn mx).1
      = ((de (List.replicate w.opt.ts.members.length (mn, mx))).x,
          weightOf (de (List.replicate w.opt.ts.members.length (mn, mx))).x
            w.opt.lengths w.opt.density,
          (de (List.replicate w.opt.ts.members.length (mn, mx))).success)
      ∧ (optimize solveFn de w mn mx).1.1.all
          (fun a => decide (mn ≤ a) && decide (a ≤ mx)) = true := by
  have h1 : (optimize solveFn de w mn mx).1
      = ((de (List.replicate w.opt.ts.members.length (mn, mx))).x,
          weightOf (de (List.replicate w.opt.ts.members.length (mn, mx))).x
            w.opt.lengths w.opt.density,
          (de (List.replicate w.opt.ts.members.length (mn, mx))).success) := by
    simp only [optimize]
    rw [foldl_objectiveW_lengths, foldl_objectiveW_density]
  refine ⟨h1, ?_⟩
  rw [h1]
  exact hb

theorem optimize_result_from_search_witness :
    (optimize solveNoneO deA worldA (1 / 10000) (1 / 20)).1
      = ((deA (List.replicate worldA.opt.ts.members.length (1 / 10000, 1 / 20))).x,
          weightOf (deA (List.replicate worldA.opt.ts.members.length (1 / 10000, 1 / 20))).x
            worldA.opt.lengths worldA.opt.density,
          (deA (List.replicate worldA.opt.ts.members.length (1 / 10000, 1 / 20))).success)
      ∧ (optimize solveNoneO deA worldA (1 / 10000) (1 / 20)).1.1.all
          (fun a => decide ((1 : ℚ) / 10000 ≤ a) && decide (a ≤ 1 / 20)) = true :=
  optimize_result_from_search solveNoneO deA worldA (1 / 10000) (1 / 20)
    (by norm_num [deA])

/-- C4: with a base truss on which every candidate is infeasible (the solver
always reports a `1 m` displacement against a `0.05 m` limit, so even the
best candidate scores at least the `1e9` penalty floor), `optimize` still
returns `final_weight = 78.5` — the raw weight `Σ aᵢ·Lᵢ·ρ` of the best
vector, far below any penalty floor.  An infeasible outcome is therefore not
recognizable from the returned final weight, contradicting the documented
check of the caller in `app.py`. -/
theorem optimize_infeasible_final_weight :
    (optimize solveHugeO deB worldA (1 / 10000) (1 / 20)).1.2.1 = 157 / 2
      ∧ 10 ^ 9 ≤ (objective_function solveHugeO worldA.opt [1 / 100]).2
      ∧ (157 / 2 : ℚ) < 10 ^ 9 := by
  refine ⟨?_, ?_, by norm_num⟩
  · simp only [optimize]
    rw [foldl_objectiveW_lengths, foldl_objectiveW_density]
    norm_num [deB, worldA, mkOptWorld, TrussOptimizer.init, tsA, memA, weightOf]
  · norm_num [objective_function, solveHugeO, worldA, mkOptWorld, TrussOptimizer.init, tsA,
      tsSolvedHuge, assignAreas, weightOf, deflectionPenalty, stressPenalty, maxAbs,
      memberStress, memA, nodeA, abs_of_nonneg]

theorem okB_map {α β : Type} (f : α → β) (e : Except String α) :
    okB (e.map f) = okB e := by
  cases e <;> rfl

theorem mkMemberSpec_self (sq : ℚ → ℚ) (idx : ℕ) (n : Node) (E A : ℚ) :
    mkMemberSpec sq idx n n E A
      = .error "DegenerateGeometryError: zero-length member" := by
  simp [mkMemberSpec]

theorem lookupNode_singleton (k : ℤ) (n : Node) (k2 : ℤ) (m : Node)
    (h : lookupNode [(k, n)] k2 = some m) : m = n := by
  by_cases hk : k2 = k
  · rw [lookupNode, if_pos hk] at h
    exact (Option.some.injEq _ _ ▸ h).symm
  · rw [lookupNode, if_neg hk] at h
    exact absurd h (by simp [lookupNode])

theorem okB_bind_cons (e : Except String Member) (rest : Except String (List Member)) :
    okB (e.bind fun m => Except.map (fun ms => m :: ms) rest) = (okB e && okB rest) := by
  cases e <;> cases rest <;> rfl

theorem parseNodesAux_map_length :
    ∀ (rows : List NodeRow) (i cnt : ℕ),
      ((parseNodesAux rows i cnt).2).length = countValidNodes rows
  | [], _, _ => rfl
  | r :: rs, i, cnt => by
    rcases hx : r.x with _ | x <;> rcases hy : r.y with _ | y <;>
      rcases hz : r.z with _ | z <;>
        simp [parseNodesAux, countValidNodes, List.filter_cons, hx, hy, hz,
          parseNodesAux_map_length rs]

theorem parseMembersAux_ok_nil (sq : ℚ → ℚ) (mp : List (ℤ × Node))
    (hmp : mp = [] ∨ ∃ k n, mp = [(k, n)]) :
    ∀ (rows : List MemberRow) (i : ℕ) (ms : List Member),
      parseMembersAux sq mp rows i = .ok ms → ms = []
  | [], _, ms, h => by
    rw [parseMembersAux] at h
    exact ((Except.ok.injEq _ _ ▸ h)).symm
  | r :: rs, i, ms, h => by
    rcases hI : r.nodeI with _ | ni <;> rcases hJ : r.nodeJ with _ | nj
    · rw [parseMembersAux, hI, hJ] at h
      exact parseMembersAux_ok_nil sq mp hmp rs (i + 1) ms h
    · rw [parseMembersAux, hI, hJ] at h
      exact parseMembersAux_ok_nil sq mp hmp rs (i + 1) ms h
    · rw [parseMembersAux, hI, hJ] at h
      exact parseMembersAux_ok_nil sq mp hmp rs (i + 1) ms h
    · simp only [parseMembersAux, hI, hJ] at h
      rcases hmp with rfl | ⟨k, n, rfl⟩
      · simp [lookupNode] at h
      · cases hla : lookupNode [(k, n)] ni with
        | none => simp only [hla] at h; simp at h
        | some a =>
          cases hlb : lookupNode [(k, n)] nj with
          | none => simp only [hla, hlb] at h; simp at h
          | some b =>
            simp only [hla, hlb] at h
            rw [lookupNode_singleton k n ni a hla,
              lookupNode_singleton k n nj b hlb] at h
            rw [mkMemberSpec_self] at h
            simp [Except.bind] at h

theorem parseMembersAux_not_ok (sq : ℚ → ℚ) (mp : List (ℤ × Node)) :
    ∀ (rows : List MemberRow) (i : ℕ),
      rows.any (memberRowBad mp) = true →
        okB (parseMembersAux sq mp rows i) = false
  | [], _, h => by simp at h
  | r :: rs, i, h => by
    rw [List.any_cons, Bool.or_eq_true] at h
    rcases hI : r.nodeI with _ | ni <;> rcases hJ : r.nodeJ with _ | nj
    · rw [parseMembersAux, hI, hJ]
      exact parseMembersAux_not_ok sq mp rs (i + 1)
        (h.resolve_left (by simp [memberRowBad, hI, hJ]))
    · rw [parseMembersAux, hI, hJ]
      exact parseMembersAux_not_ok sq mp rs (i + 1)
        (h.resolve_left (by simp [memberRowBad, hI, hJ]))
    · rw [parseMembersAux, hI, hJ]
      exact parseMembersAux_not_ok sq mp rs (i + 1)
        (h.resolve_left (by simp [memberRowBad, hI, hJ]))
    · simp only [parseMembersAux, hI, hJ]
      cases hla : lookupNode mp ni with
      | none => simp [hla, okB]
      | some a =>
        cases hlb : lookupNode mp nj with
        | none => simp [hla, hlb, okB]
        | some b =>
          simp only [hla, hlb]
          rw [okB_bind_cons]
          have hbad : memberRowBad mp r = false := by
            simp [memberRowBad, hI, hJ, hla, hlb]
          have hrs := h.resolve_left (by simp [hbad])
          rw [parseMembersAux_not_ok sq mp rs (i + 1) hrs, Bool.and_false]

theorem parseMembersAux_all_skipped (sq : ℚ → ℚ) (mp : List (ℤ × Node)) :
    ∀ (rows : List MemberRow) (i : ℕ),
      rows.all (fun r => r.nodeI.isNone || r.nodeJ.isNone) = true →
        parseMembersAux sq mp rows i = .ok []
  | [], _, _ => rfl
  | r :: rs, i, h => by
    rw [List.all_cons, Bool.and_eq_true] at h
    rcases hI : r.nodeI with _ | ni <;> rcases hJ : r.nodeJ with _ | nj
    · rw [parseMembersAux, hI, hJ]
      exact parseMembersAux_all_skipped sq mp rs (i + 1) h.2
    · rw [parseMembersAux, hI, hJ]
      exact parseMembersAux_all_skipped sq mp rs (i + 1) h.2
    · rw [parseMembersAux, hI, hJ]
      exact parseMembersAux_all_skipped sq mp rs (i + 1) h.2
    · exact absurd h.1 (by simp [hI, hJ])

theorem parseAndValidate_not_ok_of_members_nil (sq : ℚ → ℚ)
    (nrows : List NodeRow) (mrows : List MemberRow) (lrows : List LoadRow)
    (hpm : parseMembersAux sq (parseNodes nrows).2 mrows 0 = .ok []) :
    okB (parseAndValidate sq nrows mrows lrows) = false := by
  cases hpl : parseLoadsAux (parseNodes nrows).2 zeroLoads lrows 0 with
  | error e => simp [parseAndValidate, hpm, hpl, Except.bind, okB]
  | ok ld => simp [parseAndValidate, hpm, hpl, Except.bind, okB]

/-- C8: every `InvalidTopologyError` condition — a member row referencing an
undefined node id, fewer than two valid nodes, or no valid member row —
makes the `Calculate Results` handler reject the model with an error before
any solve attempt: parsing/validation fails, and the handler output is that
parse error for every dispatched solver, so neither `solve` nor
`solve_nonlinear` is ever invoked. -/
theorem invalid_topology_rejected_before_solve
    (sq : ℚ → ℚ) (solveFn : TrussSystem → Except String TrussSystem)
    (nrows : List NodeRow) (mrows : List MemberRow) (lrows : List LoadRow)
    (H : topoBad nrows mrows = true) :
    okB (parseAndValidate sq nrows mrows lrows) = false
      ∧ calcHandler sq solveFn nrows mrows lrows
          = parseAndValidate sq nrows mrows lrows := by
  have h1 : okB (parseAndValidate sq nrows mrows lrows) = false := by
    rw [topoBad, Bool.or_eq_true, Bool.or_eq_true] at H
    rcases H with (H | H) | H
    · have hno := parseMembersAux_not_ok sq (parseNodes nrows).2 mrows 0 H
      cases hpm : parseMembersAux sq (parseNodes nrows).2 mrows 0 with
      | error e => simp [parseAndValidate, hpm, Except.bind, okB]
      | ok ms => rw [hpm] at hno; simp [okB] at hno
    · have hc : countValidNodes nrows < 2 := of_decide_eq_true H
      have hlen : ((parseNodes nrows).2).length < 2 := by
        rw [parseNodes, parseNodesAux_map_length]
        exact hc
      have hmp : (parseNodes nrows).2 = []
          ∨ ∃ k n, (parseNodes nrows).2 = [(k, n)] := by
        cases hmpv : (parseNodes nrows).2 with
        | nil => exact Or.inl rfl
        | cons p t =>
          cases t with
          | nil => exact Or.inr ⟨p.1, p.2, rfl⟩
          | cons q u => rw [hmpv] at hlen; simp at hlen; omega
      cases hpm : parseMembersAux sq (parseNodes nrows).2 mrows 0 with
      | error e => simp [parseAndValidate, hpm, Except.bind, okB]
      | ok ms =>
        have hnil := parseMembersAux_ok_nil sq (parseNodes nrows).2 hmp mrows 0 ms hpm
        rw [hnil] at hpm
        exact parseAndValidate_not_ok_of_members_nil sq nrows mrows lrows hpm
    · exact parseAndValidate_not_ok_of_members_nil sq nrows mrows lrows
        (parseMembersAux_all_skipped sq (parseNodes nrows).2 mrows 0 H)
  refine ⟨h1, ?_⟩
  cases hp : parseAndValidate sq nrows mrows lrows with
  | error e => simp [calcHandler, hp, Except.bind]
  | ok ts => rw [hp] at h1; simp [okB] at h1

theorem invalid_topology_rejected_before_solve_witness :
    okB (parseAndValidate sqId
        [{ x := some 0, y := some 0, z := some 0, rX := none, rY := none, rZ := none }]
        [{ nodeI := some 1, nodeJ := some 2, Emod := none, Aval := none }] []) = false
      ∧ calcHandler sqId solveOkE
          [{ x := some 0, y := some 0, z := some 0, rX := none, rY := none, rZ := none }]
          [{ nodeI := some 1, nodeJ := some 2, Emod := none, Aval := none }] []
        = parseAndValidate sqId
            [{ x := some 0, y := some 0, z := some 0, rX := none, rY := none, rZ := none }]
            [{ nodeI := some 1, nodeJ := some 2, Emod := none, Aval := none }] [] :=
  invalid_topology_rejected_before_solve sqId solveOkE _ _ []
    (by simp [topoBad, parseNodes, parseNodesAux, memberRowBad, lookupNode,
      countValidNodes])

theorem addAt_eval (f : ℕ → ℚ) (d : ℕ) (v : ℚ) (e : ℕ) :
    addAt f d v e = f e + (if e = d then v else 0) := by
  unfold addAt
  by_cases h : e = d
  · rw [if_pos h, if_pos h, h]
  · rw [if_neg h, if_neg h, add_zero]

theorem parseLoadsAux_ok_sum (mp : List (ℤ × Node)) :
    ∀ (rows : List LoadRow) (f0 : ℕ → ℚ) (i : ℕ) (f : ℕ → ℚ),
      parseLoadsAux mp f0 rows i = .ok f →
        ∀ d, f d = f0 d + (rows.map (loadContrib mp d)).sum
  | [], f0, i, f, h => by
    simp only [parseLoadsAux] at h
    injection h with h
    subst h
    intro d
    simp
  | r :: rs, f0, i, f, h => by
    intro d
    rcases hr : r.nodeId with _ | nid
    · simp only [parseLoadsAux, hr] at h
      have hrec := parseLoadsAux_ok_sum mp rs f0 (i + 1) f h
      rw [List.map_cons, List.sum_cons, hrec d]
      have hc : loadContrib mp d r = 0 := by simp [loadContrib, hr]
      rw [hc]
      ring
    · rcases hln : lookupNode mp nid with _ | nd
      · simp only [parseLoadsAux, hr, hln] at h
        simp at h
      · simp only [parseLoadsAux, hr, hln] at h
        have hrec := parseLoadsAux_ok_sum mp rs _ (i + 1) f h
        have h3 : addAt (addAt (addAt f0 nd.dof0 (r.fx.getD 0)) nd.dof1 (r.fy.getD 0))
              nd.dof2 (r.fz.getD 0) d
            = f0 d + loadContrib mp d r := by
          rw [addAt_eval, addAt_eval, addAt_eval]
          simp only [loadContrib, hr, hln]
          ring
        rw [List.map_cons, List.sum_cons, hrec d, h3]
        ring

theorem parseLoadsAux_ok_lookup (mp : List (ℤ × Node)) :
    ∀ (rows : List LoadRow) (f0 : ℕ → ℚ) (i : ℕ) (f : ℕ → ℚ),
      parseLoadsAux mp f0 rows i = .ok f →
        ∀ r ∈ rows, ∀ nid, r.nodeId = some nid → ∃ x, lookupNode mp nid = some x
  | [], _, _, _, _ => by
    intro r hr
    exact absurd hr (List.not_mem_nil r)
  | r :: rs, f0, i, f, h => by
    intro r2 hr2 nid hnid
    rcases List.mem_cons.1 hr2 with rfl | hr2
    · rcases hln : lookupNode mp nid with _ | nd
      · simp only [parseLoadsAux, hnid, hln] at h
        simp at h
      · exact ⟨nd, rfl⟩
    · rcases hr0 : r.nodeId with _ | nid0
      · simp only [parseLoadsAux, hr0] at h
        exact parseLoadsAux_ok_lookup mp rs f0 (i + 1) f h r2 hr2 nid hnid
      · rcases hln0 : lookupNode mp nid0 with _ | nd0
        · simp only [parseLoadsAux, hr0, hln0] at h
          simp at h
        · simp only [parseLoadsAux, hr0, hln0] at h
          exact parseLoadsAux_ok_lookup mp rs _ (i + 1) f h r2 hr2 nid hnid

theorem parseNodesAux_mem :
    ∀ (rows : List NodeRow) (i cnt : ℕ) (p : ℤ × Node),
      p ∈ (parseNodesAux rows i cnt).2 → (i : ℤ) < p.1 ∧ cnt < p.2.id
  | [], _, _, p, hp => absurd hp (List.not_mem_nil p)
  | r :: rs, i, cnt, p, hp => by
    simp only [parseNodesAux] at hp
    split at hp
    · rcases List.mem_cons.1 hp with rfl | hp2
      · constructor <;> simp
      · have hb := parseNodesAux_mem rs (i + 1) (cnt + 1) p hp2
        constructor <;> omega
    · have hb := parseNodesAux_mem rs (i + 1) cnt p hp
      constructor <;> omega

theorem parseNodesAux_pairwise :
    ∀ (rows : List NodeRow) (i cnt : ℕ),
      List.Pairwise (fun p q : ℤ × Node => p.1 ≠ q.1 ∧ p.2.id ≠ q.2.id)
        (parseNodesAux rows i cnt).2
  | [], _, _ => List.Pairwise.nil
  | r :: rs, i, cnt => by
    simp only [parseNodesAux]
    split
    · refine List.Pairwise.cons ?_ (parseNodesAux_pairwise rs (i + 1) (cnt + 1))
      intro q hq
      have hb := parseNodesAux_mem rs (i + 1) (cnt + 1) q hq
      constructor
      · show (i : ℤ) + 1 ≠ q.1
        omega
      · show cnt + 1 ≠ q.2.id
        omega
    · exact parseNodesAux_pairwise rs (i + 1) cnt

theorem lookupNode_mem :
    ∀ (mp : List (ℤ × Node)) (k : ℤ) (n : Node),
      lookupNode mp k = some n → (k, n) ∈ mp
  | [], k, n, h => by simp [lookupNode] at h
  | (k1, n1) :: t, k, n, h => by
    rw [lookupNode] at h
    by_cases hk : k = k1
    · rw [if_pos hk] at h
      injection h with h
      subst h
      subst hk
      exact List.mem_cons_self _ _
    · rw [if_neg hk] at h
      exact List.mem_cons_of_mem _ (lookupNode_mem t k n h)

theorem mem_lookupNode :
    ∀ (mp : List (ℤ × Node)),
      List.Pairwise (fun p q : ℤ × Node => p.1 ≠ q.1) mp →
        ∀ (k : ℤ) (n : Node), (k, n) ∈ mp → lookupNode mp k = some n
  | [], _, k, n, h => absurd h (List.not_mem_nil _)
  | (k1, n1) :: t, hpw, k, n, h => by
    rcases List.mem_cons.1 h with heq | hmem
    · rw [Prod.mk.injEq] at heq
      obtain ⟨rfl, rfl⟩ := heq
      simp [lookupNode]
    · have hk : k ≠ k1 := by
        intro hkk
        exact ((List.pairwise_cons.1 hpw).1 (k, n) hmem) hkk.symm
      rw [lookupNode, if_neg hk]
      exact mem_lookupNode t (List.pairwise_cons.1 hpw).2 k n hmem

theorem dof_ne_self (n : Node) :
    n.dof0 ≠ n.dof1 ∧ n.dof0 ≠ n.dof2 ∧ n.dof1 ≠ n.dof2 := by
  unfold Node.dof0 Node.dof1 Node.dof2
  omega

theorem dof_disjoint (a b : Node) (ha : 1 ≤ a.id) (hb : 1 ≤ b.id)
    (hid : a.id ≠ b.id) :
    a.dof0 ≠ b.dof0 ∧ a.dof0 ≠ b.dof1 ∧ a.dof0 ≠ b.dof2
      ∧ a.dof1 ≠ b.dof0 ∧ a.dof1 ≠ b.dof1 ∧ a.dof1 ≠ b.dof2
      ∧ a.dof2 ≠ b.dof0 ∧ a.dof2 ≠ b.dof1 ∧ a.dof2 ≠ b.dof2 := by
  unfold Node.dof0 Node.dof1 Node.dof2
  omega

theorem loadContrib_eq (mp : List (ℤ × Node))
    (hpw : List.Pairwise (fun p q : ℤ × Node => p.1 ≠ q.1 ∧ p.2.id ≠ q.2.id) mp)
    (hpos : ∀ p ∈ mp, 1 ≤ p.2.id)
    (k : ℤ) (nd : Node) (hmem : (k, nd) ∈ mp) (r : LoadRow)
    (hlu : ∀ nid, r.nodeId = some nid → ∃ x, lookupNode mp nid = some x) :
    loadContrib mp nd.dof0 r = (if r.nodeId = some k then r.fx.getD 0 else 0)
      ∧ loadContrib mp nd.dof1 r = (if r.nodeId = some k then r.fy.getD 0 else 0)
      ∧ loadContrib mp nd.dof2 r = (if r.nodeId = some k then r.fz.getD 0 else 0) := by
  rcases hr : r.nodeId with _ | nid
  · simp [loadContrib, hr]
  · obtain ⟨nd2, hln⟩ := hlu nid hr
    by_cases hk : nid = k
    · subst hk
      have hndk : lookupNode mp nid = some nd :=
        mem_lookupNode mp (hpw.imp (fun h => h.1)) nid nd hmem
      have hne := dof_ne_self nd
      refine ⟨?_, ?_, ?_⟩ <;>
        simp [loadContrib, hr, hndk, hne.1, hne.2.1, hne.2.2,
          hne.1.symm, (hne.2.1).symm, (hne.2.2).symm]
    · have hmem2 := lookupNode_mem mp nid nd2 hln
      have hdiff : (k, nd) ≠ (nid, nd2) := by
        intro hcontra
        rw [Prod.mk.injEq] at hcontra
        exact hk hcontra.1.symm
      have hsymm : Symmetric (fun p q : ℤ × Node => p.1 ≠ q.1 ∧ p.2.id ≠ q.2.id) :=
        fun p q hpq => ⟨hpq.1.symm, hpq.2.symm⟩
      have hids : nd.id ≠ nd2.id :=
        (List.Pairwise.forall hsymm hpw hmem hmem2 hdiff).2
      have hd := dof_disjoint nd nd2 (hpos _ hmem) (hpos _ hmem2) hids
      refine ⟨?_, ?_, ?_⟩ <;>
        simp [loadContrib, hr, hln, hk, hd.1, hd.2.1, hd.2.2.1, hd.2.2.2.1,
          hd.2.2.2.2.1, hd.2.2.2.2.2.1, hd.2.2.2.2.2.2.1, hd.2.2.2.2.2.2.2.1,
          hd.2.2.2.2.2.2.2.2]

/-- C9: the applied load parsed at each global DOF of a node equals the sum
of the corresponding force components over all load rows naming that node —
rows add, never overwrite, and a DOF whose node is named by no load row
keeps the default of zero (an empty sum). -/
theorem loads_parsed_additively
    (nrows : List NodeRow) (lrows : List LoadRow) (k : ℤ) (nd : Node)
    (hmem : (k, nd) ∈ (parseNodes nrows).2)
    (hok : okB (parseLoadsAux (parseNodes nrows).2 zeroLoads lrows 0) = true) :
    loadsFun (parseNodes nrows).2 lrows nd.dof0 = sumLoads (fun r => r.fx) lrows k
      ∧ loadsFun (parseNodes nrows).2 lrows nd.dof1 = sumLoads (fun r => r.fy) lrows k
      ∧ loadsFun (parseNodes nrows).2 lrows nd.dof2 = sumLoads (fun r => r.fz) lrows k := by
  cases hpl : parseLoadsAux (parseNodes nrows).2 zeroLoads lrows 0 with
  | error e => rw [hpl] at hok; simp [okB] at hok
  | ok f =>
    have hsum := parseLoadsAux_ok_sum (parseNodes nrows).2 lrows zeroLoads 0 f hpl
    have hlu := parseLoadsAux_ok_lookup (parseNodes nrows).2 lrows zeroLoads 0 f hpl
    have hpw : List.Pairwise (fun p q : ℤ × Node => p.1 ≠ q.1 ∧ p.2.id ≠ q.2.id)
        (parseNodes nrows).2 := parseNodesAux_pairwise nrows 0 0
    have hpos : ∀ p ∈ (parseNodes nrows).2, 1 ≤ p.2.id := fun p hp =>
      (parseNodesAux_mem nrows 0 0 p hp).2
    have hlf : loadsFun (parseNodes nrows).2 lrows = f := by
      simp only [loadsFun, hpl]
    refine ⟨?_, ?_, ?_⟩ <;> rw [hlf]
    · rw [hsum nd.dof0, List.map_congr_left
        (fun r hr => (loadContrib_eq (parseNodes nrows).2 hpw hpos k nd hmem r (hlu r hr)).1)]
      simp [zeroLoads, sumLoads]
    · rw [hsum nd.dof1, List.map_congr_left
        (fun r hr => (loadContrib_eq (parseNodes nrows).2 hpw hpos k nd hmem r (hlu r hr)).2.1)]
      simp [zeroLoads, sumLoads]
    · rw [hsum nd.dof2, List.map_congr_left
        (fun r hr => (loadContrib_eq (parseNodes nrows).2 hpw hpos k nd hmem r (hlu r hr)).2.2)]
      simp [zeroLoads, sumLoads]

theorem loads_parsed_additively_witness :
    loadsFun (parseNodes nrowsW).2 lrowsW (Node.dof0 nodeA)
        = sumLoads (fun r => r.fx) lrowsW 1
      ∧ loadsFun (parseNodes nrowsW).2 lrowsW (Node.dof1 nodeA)
          = sumLoads (fun r => r.fy) lrowsW 1
      ∧ loadsFun (parseNodes nrowsW).2 lrowsW (Node.dof2 nodeA)
          = sumLoads (fun r => r.fz) lrowsW 1 :=
  loads_parsed_additively nrowsW lrowsW 1 nodeA
    (by simp [nrowsW, parseNodes, parseNodesAux, nodeA])
    (by rfl)

end Truss
